import Mathlib

/-!
Verification of the address / checksum / ABI-decoding core of the
`alloy-rs-core` repository.

Addresses are modelled as lists of bytes (`List Nat`, each element `< 256`),
strings as lists of ASCII/UTF-8 code units.  `keccak256`, the hex codec used
by `FromStr`, and the RLP integer encoder live in collaborator crates outside
the given sources; they are modelled from the specification (each such
definition is marked `Modelled from the spec:`).  Everything else is a direct
shallow embedding of `crates/primitives/src/bits/address.rs`,
`crates/sol-types/src/types/ty.rs` and
`crates/sol-types/src/types/event/mod.rs`.
-/

set_option maxRecDepth 40000

/-! ## Keccak-256 (external collaborator, modelled from the spec) -/

/-- 64-bit rotate left on `Nat`, reduced mod `2 ^ 64`. -/
def rotl64 (w k : Nat) : Nat :=
  ((w <<< k) ||| (w >>> (64 - k))) % 18446744073709551616

/-- Bitwise complement within 64 bits. -/
def not64 (w : Nat) : Nat := w ^^^ 18446744073709551615

/-- The Keccak-f[1600] state: 25 64-bit lanes, lane `(x, y)` in field `x + 5*y`. -/
structure KState where
  x0  : Nat
  x1  : Nat
  x2  : Nat
  x3  : Nat
  x4  : Nat
  x5  : Nat
  x6  : Nat
  x7  : Nat
  x8  : Nat
  x9  : Nat
  x10 : Nat
  x11 : Nat
  x12 : Nat
  x13 : Nat
  x14 : Nat
  x15 : Nat
  x16 : Nat
  x17 : Nat
  x18 : Nat
  x19 : Nat
  x20 : Nat
  x21 : Nat
  x22 : Nat
  x23 : Nat
  x24 : Nat

/-- The all-zero Keccak state. -/
def KState.start : KState :=
  ⟨0,0,0,0,0,0,0,0,0,0,0,0,0,0,0,0,0,0,0,0,0,0,0,0,0⟩

/-- One Keccak-f round: theta, rho, pi, chi and iota with round constant `rc`. -/
def keccakRound (s : KState) (rc : Nat) : KState :=
  let c0 := s.x0 ^^^ s.x5 ^^^ s.x10 ^^^ s.x15 ^^^ s.x20
  let c1 := s.x1 ^^^ s.x6 ^^^ s.x11 ^^^ s.x16 ^^^ s.x21
  let c2 := s.x2 ^^^ s.x7 ^^^ s.x12 ^^^ s.x17 ^^^ s.x22
  let c3 := s.x3 ^^^ s.x8 ^^^ s.x13 ^^^ s.x18 ^^^ s.x23
  let c4 := s.x4 ^^^ s.x9 ^^^ s.x14 ^^^ s.x19 ^^^ s.x24
  let d0 := c4 ^^^ rotl64 c1 1
  let d1 := c0 ^^^ rotl64 c2 1
  let d2 := c1 ^^^ rotl64 c3 1
  let d3 := c2 ^^^ rotl64 c4 1
  let d4 := c3 ^^^ rotl64 c0 1
  let a0  := s.x0 ^^^ d0
  let a1  := s.x1 ^^^ d1
  let a2  := s.x2 ^^^ d2
  let a3  := s.x3 ^^^ d3
  let a4  := s.x4 ^^^ d4
  let a5  := s.x5 ^^^ d0
  let a6  := s.x6 ^^^ d1
  let a7  := s.x7 ^^^ d2
  let a8  := s.x8 ^^^ d3
  let a9  := s.x9 ^^^ d4
  let a10 := s.x10 ^^^ d0
  let a11 := s.x11 ^^^ d1
  let a12 := s.x12 ^^^ d2
  let a13 := s.x13 ^^^ d3
  let a14 := s.x14 ^^^ d4
  let a15 := s.x15 ^^^ d0
  let a16 := s.x16 ^^^ d1
  let a17 := s.x17 ^^^ d2
  let a18 := s.x18 ^^^ d3
  let a19 := s.x19 ^^^ d4
  let a20 := s.x20 ^^^ d0
  let a21 := s.x21 ^^^ d1
  let a22 := s.x22 ^^^ d2
  let a23 := s.x23 ^^^ d3
  let a24 := s.x24 ^^^ d4
  let b0  := a0
  let b1  := rotl64 a6 44
  let b2  := rotl64 a12 43
  let b3  := rotl64 a18 21
  let b4  := rotl64 a24 14
  let b5  := rotl64 a3 28
  let b6  := rotl64 a9 20
  let b7  := rotl64 a10 3
  let b8  := rotl64 a16 45
  let b9  := rotl64 a22 61
  let b10 := rotl64 a1 1
  let b11 := rotl64 a7 6
  let b12 := rotl64 a13 25
  let b13 := rotl64 a19 8
  let b14 := rotl64 a20 18
  let b15 := rotl64 a4 27
  let b16 := rotl64 a5 36
  let b17 := rotl64 a11 10
  let b18 := rotl64 a17 15
  let b19 := rotl64 a23 56
  let b20 := rotl64 a2 62
  let b21 := rotl64 a8 55
  let b22 := rotl64 a14 39
  let b23 := rotl64 a15 41
  let b24 := rotl64 a21 2
  { x0  := (b0  ^^^ (not64 b1  &&& b2 )) ^^^ rc
    x1  := b1  ^^^ (not64 b2  &&& b3 )
    x2  := b2  ^^^ (not64 b3  &&& b4 )
    x3  := b3  ^^^ (not64 b4  &&& b0 )
    x4  := b4  ^^^ (not64 b0  &&& b1 )
    x5  := b5  ^^^ (not64 b6  &&& b7 )
    x6  := b6  ^^^ (not64 b7  &&& b8 )
    x7  := b7  ^^^ (not64 b8  &&& b9 )
    x8  := b8  ^^^ (not64 b9  &&& b5 )
    x9  := b9  ^^^ (not64 b5  &&& b6 )
    x10 := b10 ^^^ (not64 b11 &&& b12)
    x11 := b11 ^^^ (not64 b12 &&& b13)
    x12 := b12 ^^^ (not64 b13 &&& b14)
    x13 := b13 ^^^ (not64 b14 &&& b10)
    x14 := b14 ^^^ (not64 b10 &&& b11)
    x15 := b15 ^^^ (not64 b16 &&& b17)
    x16 := b16 ^^^ (not64 b17 &&& b18)
    x17 := b17 ^^^ (not64 b18 &&& b19)
    x18 := b18 ^^^ (not64 b19 &&& b15)
    x19 := b19 ^^^ (not64 b15 &&& b16)
    x20 := b20 ^^^ (not64 b21 &&& b22)
    x21 := b21 ^^^ (not64 b22 &&& b23)
    x22 := b22 ^^^ (not64 b23 &&& b24)
    x23 := b23 ^^^ (not64 b24 &&& b20)
    x24 := b24 ^^^ (not64 b20 &&& b21) }

/-- The Keccak-f round constants `RC[0..23]`, generated by the standard LFSR. -/
def keccakRC : List Nat :=
  [1, 32898, 9223372036854808714, 9223372039002292224, 32907, 2147483649,
   9223372039002292353, 9223372036854808585, 138, 136, 2147516425, 2147483658,
   2147516555, 9223372036854775947, 9223372036854808713, 9223372036854808579,
   9223372036854808578, 9223372036854775936, 32778, 9223372039002259466,
   9223372039002292353, 9223372036854808704, 2147483649, 9223372039002292232]

/-- The Keccak-f[1600] permutation: 24 rounds. -/
def keccakF (s : KState) : KState := keccakRC.foldl keccakRound s

/-- The 64-bit little-endian lane at byte offset `8*i` of `bs`. -/
def laneAt (bs : List Nat) (i : Nat) : Nat :=
  bs.getD (8*i) 0 + 256 * (bs.getD (8*i+1) 0 + 256 * (bs.getD (8*i+2) 0 +
    256 * (bs.getD (8*i+3) 0 + 256 * (bs.getD (8*i+4) 0 + 256 * (bs.getD (8*i+5) 0 +
    256 * (bs.getD (8*i+6) 0 + 256 * bs.getD (8*i+7) 0))))))

/-- Absorb one 136-byte block (rate 1088 bits = 17 lanes) into the state. -/
def absorbBlock (s : KState) (bs : List Nat) : KState :=
  keccakF
    { s with
      x0  := s.x0  ^^^ laneAt bs 0
      x1  := s.x1  ^^^ laneAt bs 1
      x2  := s.x2  ^^^ laneAt bs 2
      x3  := s.x3  ^^^ laneAt bs 3
      x4  := s.x4  ^^^ laneAt bs 4
      x5  := s.x5  ^^^ laneAt bs 5
      x6  := s.x6  ^^^ laneAt bs 6
      x7  := s.x7  ^^^ laneAt bs 7
      x8  := s.x8  ^^^ laneAt bs 8
      x9  := s.x9  ^^^ laneAt bs 9
      x10 := s.x10 ^^^ laneAt bs 10
      x11 := s.x11 ^^^ laneAt bs 11
      x12 := s.x12 ^^^ laneAt bs 12
      x13 := s.x13 ^^^ laneAt bs 13
      x14 := s.x14 ^^^ laneAt bs 14
      x15 := s.x15 ^^^ laneAt bs 15
      x16 := s.x16 ^^^ laneAt bs 16 }

/-- Absorb `n` 136-byte blocks of `bs` in order. -/
def absorbBlocks (s : KState) : Nat → List Nat → KState
  | 0, _ => s
  | n + 1, bs => absorbBlocks (absorbBlock s (bs.take 136)) n (bs.drop 136)

/-- Keccak (pre-NIST) multi-rate padding for rate 136: `0x01 … 0x80`. -/
def keccakPad (len : Nat) : List Nat :=
  let q := 136 - len % 136
  if q = 1 then [129] else 1 :: (List.replicate (q - 2) 0 ++ [128])

/-- The 8 little-endian bytes of a 64-bit lane. -/
def laneBytes (w : Nat) : List Nat :=
  [w % 256, (w >>> 8) % 256, (w >>> 16) % 256, (w >>> 24) % 256,
   (w >>> 32) % 256, (w >>> 40) % 256, (w >>> 48) % 256, (w >>> 56) % 256]

/-- Modelled from the spec: `keccak256(bytes) → Word` — "a pure function
matching the Keccak-256 variant used by Ethereum (not NIST SHA-3)", consumed
from the `crate::utils` collaborator which is not among the given sources.
Validated against the published vectors (EIP-55 checksums, CREATE/CREATE2). -/
def keccak256 (msg : List Nat) : List Nat :=
  let padded := msg ++ keccakPad msg.length
  let s := absorbBlocks KState.start (padded.length / 136) padded
  laneBytes s.x0 ++ laneBytes s.x1 ++ laneBytes s.x2 ++ laneBytes s.x3

theorem keccak256_length (msg : List Nat) : (keccak256 msg).length = 32 := by
  simp [keccak256, laneBytes]

/-! ## Hex codec and decimal formatting (external collaborators) -/

/-- Lowercase hex digit character of a nibble (`hex` crate encoding). -/
def hexDigitChar (n : Nat) : Nat := if n < 10 then 48 + n else 87 + n

/-- Modelled from the spec: `encode_to_slice(bytes, &mut buf)` — the lowercase
hex rendering of a byte string, one byte to two characters. -/
def hexEncode : List Nat → List Nat
  | [] => []
  | b :: rest => hexDigitChar (b / 16) :: hexDigitChar (b % 16) :: hexEncode rest

/-- `u8::make_ascii_uppercase`. -/
def toUpperByte (c : Nat) : Nat := if 97 ≤ c ∧ c ≤ 122 then c - 32 else c

/-- Case-insensitive hex digit value (`hex` crate decoding). -/
def digitVal (c : Nat) : Option Nat :=
  if 48 ≤ c ∧ c ≤ 57 then some (c - 48)
  else if 97 ≤ c ∧ c ≤ 102 then some (c - 87)
  else if 65 ≤ c ∧ c ≤ 70 then some (c - 55)
  else none

/-- Modelled from the spec: hex codec `decode(str) → bytes`, two characters to
one byte, case-insensitive; fails on non-hex characters or odd length. -/
def hexDecode : List Nat → Option (List Nat)
  | [] => some []
  | c1 :: c2 :: rest =>
    match digitVal c1, digitVal c2, hexDecode rest with
    | some h, some l, some bs => some ((16 * h + l) :: bs)
    | _, _, _ => none
  | [_] => none

/-- Decimal ASCII of a natural number (`itoa` formatting of the chain id). -/
def asciiDecimal (n : Nat) : List Nat :=
  if n = 0 then [48] else (Nat.digits 10 n).reverse.map (fun d => 48 + d)

/-! ## Address operations (`crates/primitives/src/bits/address.rs`) -/

/-- `Address::from_word`: take `word[12..]`. -/
def fromWord (w : List Nat) : List Nat := w.drop 12

/-- `Address::into_word`: left-pad the 20 bytes with 12 zero bytes. -/
def intoWord (a : List Nat) : List Nat := List.replicate 12 0 ++ a

/-- The byte string hashed by `to_checksum_raw`: with a chain id, the decimal
ASCII of the id followed by the 42-byte prefixed lowercase form; without, the
40-byte lowercase hex of the address. -/
def checksumInput (a : List Nat) (cid : Option Nat) : List Nat :=
  match cid with
  | some c => asciiDecimal c ++ (48 :: 120 :: hexEncode a)
  | none => hexEncode a

/-- `Address::to_checksum` (the contents of the buffer returned by
`to_checksum_raw`): `"0x"` followed by the 40 lowercase hex characters, each
uppercased when the corresponding hex character of the keccak256 hash is
`>= b'8'`. -/
def toChecksum (a : List Nat) (cid : Option Nat) : List Nat :=
  48 :: 120 ::
    List.zipWith (fun c h => if 56 ≤ h then toUpperByte c else c)
      (hexEncode a) (hexEncode (keccak256 (checksumInput a cid)))

/-- The error type of `parse_checksummed` (`AddressError`): a hex-level fault
or a checksum mismatch. -/
inductive AddressError where
  | hexErr
  | invalidChecksum
deriving DecidableEq, Repr

/-- Modelled from the spec: `FromStr` for `Address` (declared by
`wrap_fixed_bytes!`, not among the given sources) — "parse from hex (accepts
optional `0x` prefix; rejects mismatched length)". -/
def addressFromStr (s : List Nat) : Except AddressError (List Nat) :=
  let body := if s.take 2 = [48, 120] then s.drop 2 else s
  match hexDecode body with
  | some bs => if bs.length = 20 then .ok bs else .error .hexErr
  | none => .error .hexErr

/-- `Address::parse_checksummed`: require the `"0x"` prefix, parse the hex
case-insensitively, then compare byte-for-byte with the recomputed canonical
checksum. -/
def parseChecksummed (s : List Nat) (cid : Option Nat) :
    Except AddressError (List Nat) :=
  if s.take 2 = [48, 120] then
    match addressFromStr s with
    | .ok a => if s = toChecksum a cid then .ok a else .error .invalidChecksum
    | .error e => .error e
  else .error .hexErr

/-- Modelled from the spec: the RLP encoding of a `u64` (`alloy_rlp`), the
"variable-length big-endian integer encoding": `0` encodes as the empty-string
code `0x80`, a single byte below `0x80` encodes as itself, anything larger as
a string header followed by the minimal big-endian bytes. -/
def rlpEncodeU64 (n : Nat) : List Nat :=
  if n = 0 then [128]
  else if n < 128 then [n]
  else (128 + (Nat.digits 256 n).length) :: (Nat.digits 256 n).reverse

/-- `Address::create`: hash of the hand-rolled RLP buffer
`[EMPTY_LIST_CODE + len - 1, EMPTY_STRING_CODE + 20] ++ sender ++ rlp(nonce)`
with `len = 22 + nonce.length()`, then `from_word`. -/
def create (a : List Nat) (nonce : Nat) : List Nat :=
  let ne := rlpEncodeU64 nonce
  let len := 22 + ne.length
  fromWord (keccak256 ((192 + len - 1) :: (128 + 20) :: (a ++ ne)))

/-- Canonical RLP of a, here, 20-byte string: header `0x80 + len`, then bytes. -/
def rlpBytes (bs : List Nat) : List Nat := (128 + bs.length) :: bs

/-- Canonical RLP of a (short) list given its encoded payload. -/
def rlpList (payload : List Nat) : List Nat := (192 + payload.length) :: payload

/-- `Address::_create2`: hash of the 85-byte preimage
`0xff ++ sender ++ salt ++ init_code_hash`, then `from_word`. -/
def create2 (a salt initCodeHash : List Nat) : List Nat :=
  fromWord (keccak256 (255 :: (a ++ salt ++ initCodeHash)))

/-- `Address::create2_from_code`: hash the raw init code first. -/
def create2FromCode (a salt initCode : List Nat) : List Nat :=
  create2 a salt (keccak256 initCode)

/-! ## Shared list lemmas -/

theorem hexEncode_length (bs : List Nat) : (hexEncode bs).length = 2 * bs.length := by
  induction bs with
  | nil => rfl
  | cons b rest ih => simp [hexEncode, ih]; omega

/-- The EIP-55 example address `0xd8da6bf26964af9d7eed9e03e53415d37aa96045`. -/
def exAddr : List Nat :=
  [216, 218, 107, 242, 105, 100, 175, 157, 126, 237,
   158, 3, 229, 52, 21, 211, 122, 169, 96, 69]

/-- ASCII of `"0xd8dA6BF26964aF9D7eEd9e03E53415D37aA96045"`. -/
def exChecksum : List Nat :=
  [48, 120, 100, 56, 100, 65, 54, 66, 70, 50, 54, 57, 54, 52, 97, 70, 57, 68,
   55, 101, 69, 100, 57, 101, 48, 51, 69, 53, 51, 52, 49, 53, 68, 51, 55, 97,
   65, 57, 54, 48, 52, 53]

/-- C7: `into_word` left-pads the address with 12 zero bytes into a 32-byte
word, `from_word` takes bytes 12..32 of a word, and the round trip
`from_word (into_word a)` is the identity on 20-byte addresses. -/
theorem intoWord_fromWord (a : List Nat) (ha : a.length = 20) :
    (intoWord a).length = 32 ∧
    (intoWord a).take 12 = List.replicate 12 0 ∧
    (intoWord a).drop 12 = a ∧
    (∀ w : List Nat, fromWord w = w.drop 12) ∧
    fromWord (intoWord a) = a := by
  refine ⟨?_, ?_, ?_, fun _ => rfl, ?_⟩
  · simp [intoWord, ha]
  · rw [intoWord, List.take_append_of_le_length (by simp)]
    simp
  · rw [intoWord, List.drop_append_of_le_length (by simp)]
    simp
  · rw [fromWord, intoWord, List.drop_append_of_le_length (by simp)]
    simp

/-- C7 witness at the EIP-55 example address. -/
theorem intoWord_fromWord_witness :
    (intoWord exAddr).length = 32 ∧
    (intoWord exAddr).take 12 = List.replicate 12 0 ∧
    (intoWord exAddr).drop 12 = exAddr ∧
    (∀ w : List Nat, fromWord w = w.drop 12) ∧
    fromWord (intoWord exAddr) = exAddr :=
  intoWord_fromWord exAddr (by decide)

/-! ## Nibble-level characterization lemmas -/

/-- Hex nibble `i` of a byte string: the high nibble of byte `i / 2` when `i`
is even, else the low nibble. -/
def nibbleAt (bs : List Nat) (i : Nat) : Nat :=
  if i % 2 = 0 then bs.getD (i / 2) 0 / 16 else bs.getD (i / 2) 0 % 16

theorem nibbleAt_cons (b : Nat) (rest : List Nat) (i : Nat) :
    nibbleAt (b :: rest) (i + 2) = nibbleAt rest i := by
  unfold nibbleAt
  rw [Nat.add_mod_right, Nat.add_div_right _ (by norm_num)]
  simp

theorem getD_hexEncode (bs : List Nat) (i : Nat) (h : i < 2 * bs.length) :
    (hexEncode bs).getD i 0 = hexDigitChar (nibbleAt bs i) := by
  induction bs generalizing i with
  | nil => simp at h
  | cons b rest ih =>
    match i with
    | 0 => simp [hexEncode, nibbleAt]
    | 1 => simp [hexEncode, nibbleAt]
    | (i + 2) =>
      have hi : i < 2 * rest.length := by simp at h; omega
      simp only [hexEncode, List.getD_cons_succ]
      rw [ih i hi, nibbleAt_cons]

theorem getD_zipWith (f : Nat → Nat → Nat) (xs ys : List Nat) (i : Nat)
    (hx : i < xs.length) (hy : i < ys.length) :
    (List.zipWith f xs ys).getD i 0 = f (xs.getD i 0) (ys.getD i 0) := by
  induction xs generalizing ys i with
  | nil => simp at hx
  | cons x xs ih =>
    cases ys with
    | nil => simp at hy
    | cons y ys =>
      cases i with
      | zero => rfl
      | succ i =>
        simp only [List.zipWith_cons_cons, List.getD_cons_succ]
        exact ih ys i (by simpa using hx) (by simpa using hy)

theorem getD_lt_of_bytes (a : List Nat) (hb : ∀ b ∈ a, b < 256) (i : Nat)
    (h : i < a.length) : a.getD i 0 < 256 := by
  rw [List.getD_eq_getElem a 0 h]
  exact hb _ (List.getElem_mem h)

theorem nibbleAt_lt (a : List Nat) (hb : ∀ b ∈ a, b < 256) (i : Nat)
    (h : i / 2 < a.length) : nibbleAt a i < 16 := by
  have := getD_lt_of_bytes a hb (i / 2) h
  unfold nibbleAt
  split <;> omega

theorem keccak256_bytes_lt (m : List Nat) : ∀ b ∈ keccak256 m, b < 256 := by
  intro b hb
  simp [keccak256, laneBytes] at hb
  rcases hb with h | h | h | h | h | h | h | h | h | h | h | h | h | h | h | h |
    h | h | h | h | h | h | h | h | h | h | h | h | h | h | h | h <;> omega

theorem hexDigitChar_ge8_iff : ∀ n < 16, (56 ≤ hexDigitChar n ↔ 8 ≤ n) := by
  decide

/-- The per-character specification of `to_checksum`: a 42-byte string that
starts with `"0x"`, whose character `i + 2` is the `i`-th lowercase hex
character of the address, uppercased exactly when hex nibble `i` of the
keccak256 hash of `checksumInput` is at least 8. -/
def ToChecksumSpec (a : List Nat) (cid : Option Nat) : Prop :=
  (toChecksum a cid).length = 42 ∧
  (toChecksum a cid).take 2 = [48, 120] ∧
  ∀ i, i < 40 →
    (toChecksum a cid).getD (i + 2) 0 =
      (if 8 ≤ nibbleAt (keccak256 (checksumInput a cid)) i
       then toUpperByte (hexDigitChar (nibbleAt a i))
       else hexDigitChar (nibbleAt a i))

/-- C1: `to_checksum` / `to_checksum_raw` produce `"0x"` followed by the 40
lowercase hex characters of the address, character `i` uppercased exactly when
hex nibble `i` of the keccak256 hash is `≥ 8`, where the hashed input is the
40-byte unprefixed lowercase hex when no chain id is given and the decimal
ASCII of the chain id followed by the 42-byte prefixed lowercase form when one
is (`checksumInput`); in particular the EIP-55 example address checksums to
`"0xd8dA6BF26964aF9D7eEd9e03E53415D37aA96045"`. -/
theorem toChecksum_spec (a : List Nat) (cid : Option Nat)
    (ha : a.length = 20) (hb : ∀ b ∈ a, b < 256) :
    ToChecksumSpec a cid ∧ toChecksum exAddr none = exChecksum := by
  constructor
  · have hal : (hexEncode a).length = 40 := by rw [hexEncode_length, ha]
    have hhl : (hexEncode (keccak256 (checksumInput a cid))).length = 64 := by
      rw [hexEncode_length, keccak256_length]
    refine ⟨?_, rfl, ?_⟩
    · simp [toChecksum, List.length_zipWith, hal, hhl]
    · intro i hi
      simp only [toChecksum, List.getD_cons_succ]
      rw [getD_zipWith _ _ _ i (by omega) (by omega)]
      rw [getD_hexEncode a i (by omega),
        getD_hexEncode _ i (by rw [keccak256_length]; omega)]
      have h16 : nibbleAt (keccak256 (checksumInput a cid)) i < 16 :=
        nibbleAt_lt _ (keccak256_bytes_lt _) i (by rw [keccak256_length]; omega)
      rw [if_congr (hexDigitChar_ge8_iff _ h16) rfl rfl]
  · decide

/-- C1 witness: the specification instantiated at the EIP-55 example. -/
theorem toChecksum_spec_witness :
    ToChecksumSpec exAddr none ∧ toChecksum exAddr none = exChecksum :=
  toChecksum_spec exAddr none (by decide) (by decide)

/-! ## Round-trip and rejection lemmas for `parse_checksummed` -/

theorem digitVal_hexDigitChar : ∀ n < 16,
    digitVal (hexDigitChar n) = some n ∧
    digitVal (toUpperByte (hexDigitChar n)) = some n := by
  decide

theorem hexDecode_mask (bs m : List Nat) (hb : ∀ b ∈ bs, b < 256)
    (hm : 2 * bs.length ≤ m.length) :
    hexDecode (List.zipWith (fun c h => if 56 ≤ h then toUpperByte c else c)
      (hexEncode bs) m) = some bs := by
  induction bs generalizing m with
  | nil => simp [hexEncode, hexDecode]
  | cons b rest ih =>
    cases m with
    | nil => simp at hm
    | cons m1 m =>
      cases m with
      | nil => simp at hm; omega
      | cons m2 m' =>
        have hb1 : b < 256 := hb b (by simp)
        have h1 : b / 16 < 16 := by omega
        have h2 : b % 16 < 16 := by omega
        have e1 : digitVal (if 56 ≤ m1 then toUpperByte (hexDigitChar (b / 16))
            else hexDigitChar (b / 16)) = some (b / 16) := by
          split
          · exact (digitVal_hexDigitChar _ h1).2
          · exact (digitVal_hexDigitChar _ h1).1
        have e2 : digitVal (if 56 ≤ m2 then toUpperByte (hexDigitChar (b % 16))
            else hexDigitChar (b % 16)) = some (b % 16) := by
          split
          · exact (digitVal_hexDigitChar _ h2).2
          · exact (digitVal_hexDigitChar _ h2).1
        have hrec := ih m' (fun x hx => hb x (by simp [hx]))
          (by simp at hm ⊢; omega)
        simp only [hexEncode, List.zipWith_cons_cons, hexDecode, e1, e2, hrec,
          Nat.div_add_mod]

/-- C2: checksum round trip — for every 20-byte address and optional chain id,
`parse_checksummed (to_checksum a cid) cid` succeeds and returns `a`; hence
`to_checksum` of the parse of a canonically checksummed string is that string. -/
theorem parseChecksummed_toChecksum (a : List Nat) (cid : Option Nat)
    (ha : a.length = 20) (hb : ∀ b ∈ a, b < 256) :
    parseChecksummed (toChecksum a cid) cid = .ok a := by
  have htake : (toChecksum a cid).take 2 = [48, 120] := rfl
  have hmask : hexDecode ((toChecksum a cid).drop 2) = some a := by
    show hexDecode (List.zipWith _ (hexEncode a) _) = some a
    exact hexDecode_mask a _ hb
      (by rw [hexEncode_length, keccak256_length, ha]; omega)
  have hstr : addressFromStr (toChecksum a cid) = .ok a := by
    simp only [addressFromStr, htake, if_pos, hmask, ha]
  simp only [parseChecksummed, htake, if_pos, hstr]

/-- C2 witness: round trip at the EIP-55 example address. -/
theorem parseChecksummed_toChecksum_witness :
    parseChecksummed (toChecksum exAddr none) none = .ok exAddr :=
  parseChecksummed_toChecksum exAddr none (by decide) (by decide)

/-! ## Case-flip helpers for checksum rejection -/

/-- Flip the ASCII case of a letter byte; other bytes unchanged. -/
def flipCaseByte (c : Nat) : Nat :=
  if 97 ≤ c ∧ c ≤ 122 then c - 32
  else if 65 ≤ c ∧ c ≤ 90 then c + 32
  else c

/-- An ASCII letter byte. -/
def isAlphaByte (c : Nat) : Prop := (97 ≤ c ∧ c ≤ 122) ∨ (65 ≤ c ∧ c ≤ 90)

instance (c : Nat) : Decidable (isAlphaByte c) := by
  unfold isAlphaByte
  infer_instance

/-- Flip the case of the byte at index `i`. -/
def flipCaseAt (s : List Nat) (i : Nat) : List Nat :=
  s.set i (flipCaseByte (s.getD i 0))

theorem flip_digitVal : ∀ n < 16,
    digitVal (flipCaseByte (hexDigitChar n)) = digitVal (hexDigitChar n) ∧
    digitVal (flipCaseByte (toUpperByte (hexDigitChar n))) =
      digitVal (toUpperByte (hexDigitChar n)) := by
  decide

theorem flip_ne : ∀ n < 16,
    (isAlphaByte (hexDigitChar n) → flipCaseByte (hexDigitChar n) ≠ hexDigitChar n) ∧
    (isAlphaByte (toUpperByte (hexDigitChar n)) →
      flipCaseByte (toUpperByte (hexDigitChar n)) ≠ toUpperByte (hexDigitChar n)) := by
  decide

theorem getD_set_self (l : List Nat) (i v : Nat) (h : i < l.length) :
    (l.set i v).getD i 0 = v := by
  induction l generalizing i with
  | nil => simp at h
  | cons x xs ih =>
    cases i with
    | zero => rfl
    | succ i => exact ih i (by simpa using h)

theorem getD_set_ne (l : List Nat) (i j v : Nat) (h : i ≠ j) :
    (l.set i v).getD j 0 = l.getD j 0 := by
  induction l generalizing i j with
  | nil => simp
  | cons x xs ih =>
    cases i with
    | zero =>
      cases j with
      | zero => exact absurd rfl h
      | succ j => rfl
    | succ i =>
      cases j with
      | zero => rfl
      | succ j => exact ih i j (by omega)

theorem hexDecode_congr : ∀ (s t : List Nat), s.length = t.length →
    (∀ j, digitVal (s.getD j 0) = digitVal (t.getD j 0)) →
    hexDecode s = hexDecode t
  | [], [], _, _ => rfl
  | [], _ :: _, hlen, _ => by simp at hlen
  | _ :: _, [], hlen, _ => by simp at hlen
  | [_], [_], _, _ => rfl
  | [_], _ :: _ :: _, hlen, _ => by simp at hlen
  | _ :: _ :: _, [_], hlen, _ => by simp at hlen
  | c1 :: c2 :: s'', d1 :: d2 :: t'', hlen, h => by
    have h0 := h 0
    have h1 := h 1
    simp only [List.getD_cons_zero, List.getD_cons_succ] at h0 h1
    have hrec := hexDecode_congr s'' t'' (by simp at hlen ⊢; omega)
      (fun j => by simpa using h (j + 2))
    simp only [hexDecode, h0, h1, hrec]

/-- C3: `parse_checksummed` fails with a hex-level error on any input missing
the `"0x"` prefix; on any input that parses as an address but differs
byte-for-byte from the recomputed canonical checksum it fails with
`InvalidChecksum` — in particular after flipping the case of any letter of a
canonical checksum — and it returns `Ok` only when the input is exactly the
canonical checksum. -/
theorem parseChecksummed_errors :
    (∀ s cid, s.take 2 ≠ [48, 120] → parseChecksummed s cid = .error .hexErr) ∧
    (∀ s cid a, s.take 2 = [48, 120] → addressFromStr s = .ok a →
      s ≠ toChecksum a cid →
      parseChecksummed s cid = .error .invalidChecksum) ∧
    (∀ s cid a, parseChecksummed s cid = .ok a → s = toChecksum a cid) ∧
    (∀ a cid i, a.length = 20 → (∀ b ∈ a, b < 256) → i < 40 →
      isAlphaByte ((toChecksum a cid).getD (i + 2) 0) →
      parseChecksummed (flipCaseAt (toChecksum a cid) (i + 2)) cid =
        .error .invalidChecksum) := by
  refine ⟨?_, ?_, ?_, ?_⟩
  · intro s cid hp
    simp only [parseChecksummed, if_neg hp]
  · intro s cid a hp hfs hne
    simp only [parseChecksummed, if_pos hp, hfs, if_neg hne]
  · intro s cid a h
    simp only [parseChecksummed] at h
    by_cases hp : s.take 2 = [48, 120]
    · rw [if_pos hp] at h
      cases hfs : addressFromStr s with
      | ok a' =>
        rw [hfs] at h
        dsimp only at h
        by_cases hc : s = toChecksum a' cid
        · rw [if_pos hc] at h
          injection h with h'
          rw [hc, h']
        · rw [if_neg hc] at h
          cases h
      | error e =>
        rw [hfs] at h
        dsimp only at h
        cases h
    · rw [if_neg hp] at h
      cases h
  · intro a cid i ha hb hi halpha
    have hal : (hexEncode a).length = 40 := by rw [hexEncode_length, ha]
    have hhl : (hexEncode (keccak256 (checksumInput a cid))).length = 64 := by
      rw [hexEncode_length, keccak256_length]
    have hn16 : nibbleAt a i < 16 := nibbleAt_lt a hb i (by omega)
    set hh := hexEncode (keccak256 (checksumInput a cid)) with hhdef
    set Z := List.zipWith (fun c h => if 56 ≤ h then toUpperByte c else c)
      (hexEncode a) hh with hZdef
    have hZlen : Z.length = 40 := by
      rw [hZdef, List.length_zipWith, hal, hhl]
      omega
    have hs : toChecksum a cid = 48 :: 120 :: Z := rfl
    have hc : Z.getD i 0 =
        (if 56 ≤ hh.getD i 0 then toUpperByte (hexDigitChar (nibbleAt a i))
         else hexDigitChar (nibbleAt a i)) := by
      rw [hZdef, getD_zipWith _ _ _ i (by omega) (by omega),
        getD_hexEncode a i (by omega)]
    have halpha' : isAlphaByte (Z.getD i 0) := by
      have : (toChecksum a cid).getD (i + 2) 0 = Z.getD i 0 := by
        rw [hs]; simp [List.getD_cons_succ]
      rwa [this] at halpha
    have hflip : flipCaseAt (toChecksum a cid) (i + 2) =
        48 :: 120 :: Z.set i (flipCaseByte (Z.getD i 0)) := by
      rw [flipCaseAt, hs]
      simp [List.getD_cons_succ]
    set Zf := Z.set i (flipCaseByte (Z.getD i 0)) with hZfdef
    have hdv : digitVal (flipCaseByte (Z.getD i 0)) = digitVal (Z.getD i 0) := by
      rw [hc]
      split
      · exact (flip_digitVal _ hn16).2
      · exact (flip_digitVal _ hn16).1
    have hne : flipCaseByte (Z.getD i 0) ≠ Z.getD i 0 := by
      revert halpha'
      rw [hc]
      split
      · exact fun h => (flip_ne _ hn16).2 h
      · exact fun h => (flip_ne _ hn16).1 h
    have hdec : hexDecode Zf = some a := by
      have hcongr : hexDecode Zf = hexDecode Z := by
        apply hexDecode_congr
        · rw [hZfdef, List.length_set]
        · intro j
          by_cases hij : i = j
          · subst hij
            rw [hZfdef, getD_set_self Z i _ (by omega), hdv]
          · rw [hZfdef, getD_set_ne Z i j _ hij]
      rw [hcongr, hZdef]
      exact hexDecode_mask a hh hb (by rw [ha, hhl]; omega)
    have hzz : Zf ≠ Z := by
      intro heq
      have h1 : Zf.getD i 0 = flipCaseByte (Z.getD i 0) :=
        getD_set_self Z i _ (by omega)
      rw [heq] at h1
      exact hne h1.symm
    have hsne : (48 :: 120 :: Zf : List Nat) ≠ toChecksum a cid := by
      rw [hs]
      intro heq
      apply hzz
      injection heq with _ h2
      injection h2 with _ h3
    have hstr : addressFromStr (48 :: 120 :: Zf) = .ok a := by
      have htk : (48 :: 120 :: Zf : List Nat).take 2 = [48, 120] := rfl
      simp only [addressFromStr, htk, if_pos, List.drop_succ_cons,
        List.drop_zero, hdec, ha, if_pos rfl]
    rw [hflip]
    simp only [parseChecksummed, hstr, if_neg hsne]
    rfl

/-- C3 witness: a missing prefix is a hex-level error, and flipping the case
of the letter at index 5 of the example checksum is a checksum error. -/
theorem parseChecksummed_errors_witness :
    parseChecksummed [97] none = .error .hexErr ∧
    parseChecksummed (flipCaseAt (toChecksum exAddr none) (3 + 2)) none =
      .error .invalidChecksum :=
  ⟨parseChecksummed_errors.1 [97] none (by decide),
   parseChecksummed_errors.2.2.2 exAddr none 3 (by decide) (by decide)
     (by decide) (by decide)⟩

/-! ## CREATE2 and CREATE address derivation -/

/-- The 20 bytes of `0x4d1a2e2bb4f88f0250f26ffff098b0b30b26bf38` (EIP-1014
test vector for the zero sender, zero salt and init code `0x00`). -/
def exCreate2 : List Nat :=
  [77, 26, 46, 43, 180, 248, 143, 2, 80, 242, 111, 255, 240, 152, 176, 179,
   11, 38, 191, 56]

/-- The sender `0x6ac7ea33f8831ea9dcc53393aaa88b25a785dbf0`. -/
def exSender : List Nat :=
  [106, 199, 234, 51, 248, 131, 30, 169, 220, 197, 51, 147, 170, 168, 139, 37,
   167, 133, 219, 240]

/-- The 20 bytes of `0xcd234a471b72ba2f1ccf0a70fcaba648a5eecd8d`. -/
def exCreate0 : List Nat :=
  [205, 35, 74, 71, 27, 114, 186, 47, 28, 207, 10, 112, 252, 171, 166, 72,
   165, 238, 205, 141]

/-- The 20 bytes of `0x343c43a37d37dff08ae8c4a11544c718abb4fcf8`. -/
def exCreate1 : List Nat :=
  [52, 60, 67, 163, 125, 55, 223, 240, 138, 232, 196, 161, 21, 68, 199, 24,
   171, 180, 252, 248]

/-- C5: `create2` hashes the 85-byte preimage
`0xff ++ sender ++ salt ++ init_code_hash` and takes bytes 12.. of the hash;
`create2_from_code` first hashes the raw init code; the zero sender with zero
salt and init code `0x00` yields
`0x4d1a2e2bb4f88f0250f26ffff098b0b30b26bf38`. -/
theorem create2_spec (a salt ich : List Nat) (ha : a.length = 20)
    (hs : salt.length = 32) (hi : ich.length = 32) :
    (create2 a salt ich = fromWord (keccak256 (255 :: (a ++ salt ++ ich))) ∧
     (255 :: (a ++ salt ++ ich)).length = 85) ∧
    (∀ code, create2FromCode a salt code = create2 a salt (keccak256 code)) ∧
    create2FromCode (List.replicate 20 0) (List.replicate 32 0) [0] =
      exCreate2 := by
  refine ⟨⟨rfl, ?_⟩, fun _ => rfl, ?_⟩
  · simp [ha, hs, hi]
  · decide

/-- C5 witness at the EIP-1014 zero-sender test vector. -/
theorem create2_spec_witness :
    (create2 (List.replicate 20 0) (List.replicate 32 0) (List.replicate 32 0) =
       fromWord (keccak256 (255 :: (List.replicate 20 0 ++ List.replicate 32 0 ++
         List.replicate 32 0))) ∧
     (255 :: (List.replicate 20 0 ++ List.replicate 32 0 ++
       List.replicate 32 0)).length = 85) ∧
    (∀ code, create2FromCode (List.replicate 20 0) (List.replicate 32 0) code =
      create2 (List.replicate 20 0) (List.replicate 32 0) (keccak256 code)) ∧
    create2FromCode (List.replicate 20 0) (List.replicate 32 0) [0] =
      exCreate2 :=
  create2_spec (List.replicate 20 0) (List.replicate 32 0)
    (List.replicate 32 0) (by decide) (by decide) (by decide)

theorem digits_length_le (b n k : Nat) (hb : 1 < b) (h : n < b ^ k) :
    (Nat.digits b n).length ≤ k := by
  rcases Nat.eq_zero_or_pos n with h0 | h0
  · subst h0; simp
  · rw [Nat.digits_len b n hb (by omega)]
    have := (Nat.lt_pow_iff_log_lt hb (by omega)).mp h
    omega

/-- C6: `create` hashes the canonical RLP encoding of the two-element list
`[sender_bytes, nonce]` — a list header, the 20-byte string, and the
variable-length big-endian integer — and takes bytes 12.. of the hash; the
sender `0x6ac7…dbf0` yields `0xcd23…cd8d` at nonce 0 and `0x343c…fcf8` at
nonce 1. -/
theorem create_spec (a : List Nat) (nonce : Nat) (ha : a.length = 20)
    (hn : nonce < 18446744073709551616) :
    (create a nonce =
       fromWord (keccak256 (rlpList (rlpBytes a ++ rlpEncodeU64 nonce))) ∧
     (rlpBytes a ++ rlpEncodeU64 nonce).length < 56) ∧
    create exSender 0 = exCreate0 ∧ create exSender 1 = exCreate1 := by
  have hk : (rlpEncodeU64 nonce).length ≤ 9 := by
    unfold rlpEncodeU64
    split
    · simp
    · split
      · simp
      · have h8 : (256 : Nat) ^ 8 = 18446744073709551616 := by norm_num
        have := digits_length_le 256 nonce 8 (by norm_num) (by omega)
        simp [List.length_reverse]
        omega
  have hplen : (rlpBytes a ++ rlpEncodeU64 nonce).length =
      21 + (rlpEncodeU64 nonce).length := by
    simp [rlpBytes, ha]
    omega
  refine ⟨⟨?_, by omega⟩, by decide, by decide⟩
  have hL : (192 + (22 + (rlpEncodeU64 nonce).length) - 1)
        :: (128 + 20) :: (a ++ rlpEncodeU64 nonce) =
      rlpList (rlpBytes a ++ rlpEncodeU64 nonce) := by
    rw [rlpList, hplen, rlpBytes, ha, List.cons_append]
    congr 1
    omega
  show fromWord (keccak256 ((192 + (22 + (rlpEncodeU64 nonce).length) - 1)
    :: (128 + 20) :: (a ++ rlpEncodeU64 nonce))) = _
  rw [hL]

/-- C6 witness at the historical test sender and nonce 0. -/
theorem create_spec_witness :
    (create exSender 0 =
       fromWord (keccak256 (rlpList (rlpBytes exSender ++ rlpEncodeU64 0))) ∧
     (rlpBytes exSender ++ rlpEncodeU64 0).length < 56) ∧
    create exSender 0 = exCreate0 ∧ create exSender 1 = exCreate1 :=
  create_spec exSender 0 (by decide) (by decide)

/-! ## SolType decode validation (`crates/sol-types/src/types/ty.rs`) -/

/-- The decoder-side error cases relevant here (`crate::Error`):
`TypeCheckFail` carries the expected Solidity type name. -/
inductive SolError where
  | typeCheckFail (expectedName : String)
  | other (msg : String)
deriving DecidableEq

/-- A `SolType` instance as used by `check_decode`: its `valid_token`
predicate, its `detokenize` conversion and its Solidity type name. -/
structure SolTypeModel (Token Rust : Type) where
  validToken : Token → Bool
  detokenize : Token → Rust
  solTypeName : String

/-- `SolType::type_check`: `Ok` when `valid_token` holds, else the
`type_check_fail` error naming the expected type. -/
def typeCheck {Token Rust : Type} (T : SolTypeModel Token Rust) (t : Token) :
    Except SolError Unit :=
  if T.validToken t then .ok () else .error (.typeCheckFail T.solTypeName)

/-- `check_decode`: run `type_check` only when `validate` is set, then
detokenize. -/
def checkDecode {Token Rust : Type} (T : SolTypeModel Token Rust) (t : Token)
    (validate : Bool) : Except SolError Rust :=
  match (if validate then typeCheck T t else .ok ()) with
  | .ok _ => .ok (T.detokenize t)
  | .error e => .error e

/-- C4: with `validate = true`, `check_decode` fails (with the `TypeCheckFail`
produced by `type_check`) exactly when `valid_token` is false and otherwise
returns `detokenize`; with `validate = false` it always returns `detokenize`
verbatim, applying no check. -/
theorem checkDecode_spec {Token Rust : Type} (T : SolTypeModel Token Rust)
    (t : Token) :
    (checkDecode T t true =
      (if T.validToken t then .ok (T.detokenize t)
       else .error (.typeCheckFail T.solTypeName))) ∧
    ((∃ e, checkDecode T t true = .error e) ↔ T.validToken t = false) ∧
    checkDecode T t false = .ok (T.detokenize t) := by
  refine ⟨?_, ?_, rfl⟩
  · unfold checkDecode typeCheck
    by_cases h : T.validToken t <;> simp [h]
  · unfold checkDecode typeCheck
    by_cases h : T.validToken t <;> simp [h]

/-! ## Event topic encoding (`crates/sol-types/src/types/event/mod.rs`) -/

/-- A `SolEvent` instance as used by `encode_topics`: its anonymity flag, its
number of indexed parameters, and its `encode_topics_raw` writer.  The writer
receives the contents of the `&mut [WordToken]` buffer and yields the
contents after its in-place writes (or the buffer-too-small error). -/
structure SolEventModel where
  anonymous : Bool
  indexedCount : Nat
  encodeTopicsRaw : List (List Nat) → Except SolError (List (List Nat))

/-- Modelled from the spec: `TopicList::COUNT` for the event's topic list —
one topic per indexed parameter, preceded by the signature-hash slot unless
the event is anonymous. -/
def topicListCount (e : SolEventModel) : Nat :=
  e.indexedCount + (if e.anonymous then 0 else 1)

/-- The zero word `WordToken(B256::ZERO)`. -/
def zeroWord : List Nat := List.replicate 32 0

/-- `SolEvent::encode_topics`: allocate `COUNT` zero word-tokens and let
`encode_topics_raw` fill them, unwrapping its result (`none` models the
`unwrap` panic). -/
def encodeTopics (e : SolEventModel) : Option (List (List Nat)) :=
  match e.encodeTopicsRaw (List.replicate (topicListCount e) zeroWord) with
  | .ok r => some r
  | .error _ => none

/-- C8: when `encode_topics_raw` succeeds — writing in place through a slice,
so preserving the buffer length — `encode_topics` returns a vector of length
exactly `TopicList::COUNT`; for an anonymous event no signature-hash slot is
prepended, so that length is the number of indexed parameters. -/
theorem encodeTopics_length (e : SolEventModel)
    (hpres : ∀ buf r, e.encodeTopicsRaw buf = .ok r → r.length = buf.length)
    (hok : ∃ r, e.encodeTopicsRaw
      (List.replicate (topicListCount e) zeroWord) = .ok r) :
    ∃ ts, encodeTopics e = some ts ∧ ts.length = topicListCount e ∧
      (e.anonymous = true → ts.length = e.indexedCount) := by
  obtain ⟨r, hr⟩ := hok
  refine ⟨r, ?_, ?_, ?_⟩
  · simp [encodeTopics, hr]
  · rw [hpres _ r hr, List.length_replicate]
  · intro hanon
    rw [hpres _ r hr, List.length_replicate, topicListCount, hanon]
    simp

/-- An anonymous two-indexed-parameter event whose topic writer writes each
indexed topic over the zeroed buffer (here: writes nothing). -/
def exEvent : SolEventModel where
  anonymous := true
  indexedCount := 2
  encodeTopicsRaw := fun buf => .ok buf

/-- C8 witness at a concrete anonymous event with two indexed parameters. -/
theorem encodeTopics_length_witness :
    ∃ ts, encodeTopics exEvent = some ts ∧
      ts.length = topicListCount exEvent ∧
      (exEvent.anonymous = true → ts.length = exEvent.indexedCount) :=
  encodeTopics_length exEvent
    (fun buf r h => by cases h; rfl)
    ⟨List.replicate (topicListCount exEvent) zeroWord, rfl⟩

/-! ## Bounds-checked model of `to_checksum_raw` -/

/-- A single in-bounds buffer write; `none` models an out-of-bounds access. -/
def setB (l : List Nat) (i v : Nat) : Option (List Nat) :=
  if i < l.length then some (l.set i v) else none

/-- `copy_from_slice` into `l[start .. start + src.length]`; `none` models an
out-of-bounds range. -/
def writeAt (l : List Nat) (start : Nat) (src : List Nat) : Option (List Nat) :=
  if start + src.length ≤ l.length then
    some (l.take start ++ src ++ l.drop (start + src.length))
  else none

/-- The case-flip loop of `to_checksum_raw`:
`for (i, x) in hash_hex.iter().enumerate().take(40) { if *x >= b'8' {
buf[i + 2].make_ascii_uppercase() } }`, with the `buf[i + 2]` access
bounds-checked. -/
def upperLoop (buf : List Nat) (hh : List Nat) (i : Nat) : Option (List Nat) :=
  match hh with
  | [] => some buf
  | x :: rest =>
    if i < 40 then
      (if 56 ≤ x then setB buf (i + 2) (toUpperByte (buf.getD (i + 2) 0))
       else some buf).bind
        (fun b => upperLoop b rest (i + 1))
    else some buf

/-- `Address::to_checksum_raw` with every buffer access bounds-checked; `none`
models the `assert_eq!` panic, an `encode_to_slice` length-mismatch unwrap, or
an out-of-bounds `get_unchecked`.  Mirrors the source step by step: the
length assertion, the `"0x"` writes, `encode_to_slice` into `buf[2..]`, the
64-byte chain-id staging buffer holding `prefix ++ buf` truncated to
`2 + 40 + prefix_len`, the keccak256 hash, its 64-byte hex rendering, and the
40 case-flip writes at indices `2..42`. -/
def toChecksumRawChecked (a buf : List Nat) (cid : Option Nat) :
    Option (List Nat) :=
  if buf.length = 42 then
    match setB buf 0 48 with
    | none => none
    | some b1 =>
      match setB b1 1 120 with
      | none => none
      | some b2 =>
        match (if b2.length - 2 = 2 * a.length then writeAt b2 2 (hexEncode a)
               else none) with
        | none => none
        | some b3 =>
          match (match cid with
                 | some c =>
                   match writeAt (List.replicate 64 0) 0 (asciiDecimal c) with
                   | none => none
                   | some s1 =>
                     match writeAt s1 (asciiDecimal c).length b3 with
                     | none => none
                     | some s2 =>
                       if 2 + 40 + (asciiDecimal c).length ≤ 64 then
                         some (s2.take (2 + 40 + (asciiDecimal c).length))
                       else none
                 | none => some (b3.drop 2)) with
          | none => none
          | some toHash =>
            match (if (64 : Nat) = 2 * (keccak256 toHash).length
                   then some (hexEncode (keccak256 toHash)) else none) with
            | none => none
            | some hh => upperLoop b3 hh 0
  else none

theorem getD_append_len (l t : List Nat) (c d : Nat) :
    (l ++ c :: t).getD l.length d = c := by
  induction l with
  | nil => rfl
  | cons x xs ih => simpa using ih

theorem set_append_len (l t : List Nat) (c v : Nat) :
    (l ++ c :: t).set l.length v = l ++ v :: t := by
  induction l with
  | nil => rfl
  | cons x xs ih => simpa using ih

theorem asciiDecimal_length_le (c : Nat) (h : c < 18446744073709551616) :
    (asciiDecimal c).length ≤ 20 := by
  unfold asciiDecimal
  split
  · simp
  · have h20 : (10 : Nat) ^ 20 = 100000000000000000000 := by norm_num
    have := digits_length_le 10 c 20 (by norm_num) (by omega)
    simpa using this

theorem upperLoop_eq (l : List Nat) (hh done : List Nat) (i : Nat)
    (hdone : done.length = i + 2) (hl : i + l.length = 40)
    (hhh : l.length ≤ hh.length) :
    upperLoop (done ++ l) hh i =
      some (done ++
        List.zipWith (fun c h => if 56 ≤ h then toUpperByte c else c) l hh) := by
  induction l generalizing hh done i with
  | nil =>
    cases hh with
    | nil => simp [upperLoop]
    | cons x rest =>
      have hni : ¬ i < 40 := by simp at hl; omega
      simp [upperLoop, hni]
  | cons c l' ih =>
    cases hh with
    | nil => simp at hhh
    | cons x hh' =>
      have hi40 : i < 40 := by simp at hl; omega
      have hgd : (done ++ c :: l').getD (i + 2) 0 = c := by
        rw [← hdone]; exact getD_append_len done l' c 0
      have hlen : i + 2 < (done ++ c :: l').length := by
        simp [hdone]
      have hst : ∀ v, setB (done ++ c :: l') (i + 2) v = some (done ++ v :: l') := by
        intro v
        rw [setB, if_pos hlen, ← hdone, set_append_len]
      have hrec : ∀ v, upperLoop (done ++ v :: l') hh' (i + 1) =
          some (done ++ v ::
            List.zipWith (fun c h => if 56 ≤ h then toUpperByte c else c) l' hh') := by
        intro v
        have := ih hh' (done ++ [v]) (i + 1)
          (by simp [hdone])
          (by simp at hl ⊢; omega)
          (by simp at hhh ⊢; omega)
        simpa using this
      unfold upperLoop
      rw [if_pos hi40, hgd]
      by_cases hx : 56 ≤ x
      · rw [if_pos hx, hst, Option.some_bind, hrec]
        simp [hx]
      · rw [if_neg hx, Option.some_bind, hrec]
        simp [hx]

theorem toChecksumRawChecked_eq (a buf : List Nat) (cid : Option Nat)
    (ha : a.length = 20) (hbuf : buf.length = 42)
    (hcid : ∀ c ∈ cid, c < 18446744073709551616) :
    toChecksumRawChecked a buf cid = some (toChecksum a cid) := by
  obtain ⟨p, q, t, rfl, ht⟩ : ∃ p q t, buf = p :: q :: t ∧ t.length = 40 := by
    cases buf with
    | nil => simp at hbuf
    | cons p rest =>
      cases rest with
      | nil => simp at hbuf
      | cons q t => exact ⟨p, q, t, rfl, by simpa using hbuf⟩
  have hel : (hexEncode a).length = 40 := by rw [hexEncode_length, ha]
  have hb42 : (p :: q :: t).length = 42 := by simp [ht]
  have e1 : setB (p :: q :: t) 0 48 = some (48 :: q :: t) := by
    rw [setB, if_pos (by simp)]; rfl
  have e2 : setB (48 :: q :: t) 1 120 = some (48 :: 120 :: t) := by
    rw [setB, if_pos (by simp)]; rfl
  have e3c : (48 :: 120 :: t).length - 2 = 2 * a.length := by simp [ht, ha]
  have e3 : writeAt (48 :: 120 :: t) 2 (hexEncode a) =
      some (48 :: 120 :: hexEncode a) := by
    rw [writeAt, if_pos (by simp [hel, ht])]
    have hdrop : (48 :: 120 :: t).drop (2 + (hexEncode a).length) = [] := by
      rw [hel]
      exact List.drop_eq_nil_of_le (by simp [ht])
    rw [hdrop]
    simp
  have hb3len : (48 :: 120 :: hexEncode a).length = 42 := by simp [hel]
  have ehh : ∀ X : List Nat, (64 : Nat) = 2 * (keccak256 X).length := by
    intro X
    rw [keccak256_length]
  have hulgen : ∀ X : List Nat, upperLoop (48 :: 120 :: hexEncode a)
      (hexEncode (keccak256 X)) 0 =
      some (48 :: 120 ::
        List.zipWith (fun c h => if 56 ≤ h then toUpperByte c else c)
          (hexEncode a) (hexEncode (keccak256 X))) := by
    intro X
    have := upperLoop_eq (hexEncode a) (hexEncode (keccak256 X)) [48, 120] 0
      (by simp) (by simp [hel])
      (by rw [hel, hexEncode_length, keccak256_length]; omega)
    simpa using this
  cases cid with
  | none =>
    rw [toChecksumRawChecked, if_pos hb42, e1]
    dsimp only
    rw [e2]
    dsimp only
    rw [if_pos e3c, e3]
    dsimp only
    simp only [List.drop_succ_cons, List.drop_zero]
    rw [if_pos (ehh (hexEncode a))]
    dsimp only
    exact hulgen (hexEncode a)
  | some c =>
    have hpl : (asciiDecimal c).length ≤ 20 :=
      asciiDecimal_length_le c (hcid c (by simp))
    have f1 : writeAt (List.replicate 64 0) 0 (asciiDecimal c) =
        some (asciiDecimal c ++
          List.replicate (64 - (asciiDecimal c).length) 0) := by
      rw [writeAt, if_pos (by rw [List.length_replicate]; omega)]
      rw [List.take_zero, List.nil_append, Nat.zero_add, List.drop_replicate]
    have f2 : writeAt (asciiDecimal c ++
          List.replicate (64 - (asciiDecimal c).length) 0)
        (asciiDecimal c).length (48 :: 120 :: hexEncode a) =
        some (asciiDecimal c ++ ((48 :: 120 :: hexEncode a) ++
          (List.replicate (64 - (asciiDecimal c).length) 0).drop 42)) := by
      rw [writeAt, if_pos (by simp [hb3len]; omega)]
      rw [List.take_left' rfl, hb3len, List.drop_append 42]
      simp
    have f3 : (asciiDecimal c ++ ((48 :: 120 :: hexEncode a) ++
          (List.replicate (64 - (asciiDecimal c).length) 0).drop 42)).take
        (2 + 40 + (asciiDecimal c).length) =
        checksumInput a (some c) := by
      have harith : 2 + 40 + (asciiDecimal c).length =
          (asciiDecimal c).length + 42 := by omega
      rw [harith, List.take_append 42, List.take_left' hb3len]
      rfl
    rw [toChecksumRawChecked, if_pos hb42, e1]
    dsimp only
    rw [e2]
    dsimp only
    rw [if_pos e3c, e3]
    dsimp only
    rw [f1]
    dsimp only
    rw [f2]
    dsimp only
    rw [if_pos (by omega : 2 + 40 + (asciiDecimal c).length ≤ 64), f3]
    dsimp only
    rw [if_pos (ehh (checksumInput a (some c)))]
    dsimp only
    exact hulgen (checksumInput a (some c))

/-- C9: `to_checksum_raw` aborts exactly when the supplied buffer is not 42
bytes: the bounds-checked model returns `none` for every buffer of any other
length, and for a 42-byte buffer it completes — every internal access in
bounds — for every 20-byte address and every chain id below `2^64`,
returning the checksum. -/
theorem toChecksumRaw_safety (a buf : List Nat) (cid : Option Nat)
    (ha : a.length = 20) (hcid : ∀ c ∈ cid, c < 18446744073709551616) :
    (buf.length ≠ 42 → toChecksumRawChecked a buf cid = none) ∧
    (buf.length = 42 →
      toChecksumRawChecked a buf cid = some (toChecksum a cid)) := by
  constructor
  · intro h
    rw [toChecksumRawChecked, if_neg h]
  · intro h
    exact toChecksumRawChecked_eq a buf cid ha h hcid

/-- C9 witness: a 41-byte buffer aborts; a 42-byte buffer completes, also at
chain id 1 and at `u64::MAX`. -/
theorem toChecksumRaw_safety_witness :
    toChecksumRawChecked exAddr (List.replicate 41 0) none = none ∧
    toChecksumRawChecked exAddr (List.replicate 42 0) (some 1) =
      some (toChecksum exAddr (some 1)) ∧
    toChecksumRawChecked exAddr (List.replicate 42 0)
        (some 18446744073709551615) =
      some (toChecksum exAddr (some 18446744073709551615)) :=
  ⟨(toChecksumRaw_safety exAddr (List.replicate 41 0) none (by decide)
      (by simp)).1 (by decide),
   (toChecksumRaw_safety exAddr (List.replicate 42 0) (some 1) (by decide)
      (by simp)).2 (by decide),
   (toChecksumRaw_safety exAddr (List.replicate 42 0)
      (some 18446744073709551615) (by decide) (by simp)).2 (by decide)⟩

/-! ## `Display` for `Address` -/

/-- `impl fmt::Display for Address`: stack 42-byte buffer, `to_checksum_raw`
with no chain id, written out in full. -/
def displayAddr (a : List Nat) : Option (List Nat) :=
  toChecksumRawChecked a (List.replicate 42 0) none

/-- The alternate (`{:#}`) rendering: `checksum[..6] ++ "…" ++ checksum[38..]`,
the ellipsis being the UTF-8 bytes `[226, 128, 166]`. -/
def displayAddrAlt (a : List Nat) : Option (List Nat) :=
  (toChecksumRawChecked a (List.replicate 42 0) none).map
    (fun cs => cs.take 6 ++ [226, 128, 166] ++ cs.drop 38)

/-- C10: `Display` formats an address exactly as its EIP-55 checksum
`to_checksum(None)` (not the raw lowercase hex), and the alternate `{:#}`
form is the first 6 characters of that checksum, then the ellipsis, then its
last 4 characters (`drop 38` of the 42-character checksum). -/
theorem display_spec (a : List Nat) (ha : a.length = 20) :
    displayAddr a = some (toChecksum a none) ∧
    displayAddrAlt a = some ((toChecksum a none).take 6 ++ [226, 128, 166] ++
      (toChecksum a none).drop 38) ∧
    (toChecksum a none).length = 42 ∧
    (toChecksum a none).drop 38 =
      (toChecksum a none).drop ((toChecksum a none).length - 4) := by
  have heq := toChecksumRawChecked_eq a (List.replicate 42 0) none ha
    (by simp) (by simp)
  have hlen : (toChecksum a none).length = 42 := by
    simp [toChecksum, List.length_zipWith, hexEncode_length, ha,
      keccak256_length]
  refine ⟨heq, ?_, hlen, ?_⟩
  · rw [displayAddrAlt, heq]
    rfl
  · rw [hlen]

/-- C10 witness at the EIP-55 example address. -/
theorem display_spec_witness :
    displayAddr exAddr = some (toChecksum exAddr none) ∧
    displayAddrAlt exAddr = some ((toChecksum exAddr none).take 6 ++
      [226, 128, 166] ++ (toChecksum exAddr none).drop 38) ∧
    (toChecksum exAddr none).length = 42 ∧
    (toChecksum exAddr none).drop 38 =
      (toChecksum exAddr none).drop ((toChecksum exAddr none).length - 4) :=
  display_spec exAddr (by decide)

/-- A concrete `bool` SolType instance: the token is valid when the 31 high
bytes are zero and the low byte is 0 or 1. -/
def exBoolType : SolTypeModel (List Nat) Bool where
  validToken := fun w =>
    decide (w.take 31 = List.replicate 31 0) && decide (w.getD 31 0 ≤ 1)
  detokenize := fun w => w.getD 31 0 != 0
  solTypeName := "bool"

/-- C4 witness: `check_decode` at the concrete `bool` descriptor and the zero
word token. -/
theorem checkDecode_spec_witness :
    (checkDecode exBoolType zeroWord true =
      (if exBoolType.validToken zeroWord
       then .ok (exBoolType.detokenize zeroWord)
       else .error (.typeCheckFail exBoolType.solTypeName))) ∧
    ((∃ e, checkDecode exBoolType zeroWord true = .error e) ↔
      exBoolType.validToken zeroWord = false) ∧
    checkDecode exBoolType zeroWord false =
      .ok (exBoolType.detokenize zeroWord) :=
  checkDecode_spec exBoolType zeroWord
